import Mathlib

/-!
# Verification of `drumkit_generator.py`

A shallow embedding of the drum-kit generator script: recursive discovery of
audio files filtered by extension (`get_audio_files`), uniform sampling
without replacement (`random.sample`, modelled by an oracle-driven selection),
and placement of numbered copies or symlinks into a timestamped kit directory
(`create_drum_kit`), repeated over several kits (`main`'s loop, `runKits`).

Filesystem effects are modelled by an explicit state (`FS`): the set of
directories created and the entries placed.  Exceptions raised by library
calls are modelled by `Except PyErr`; the environment (`Env`) carries the
wall-clock reading, the randomness oracle, and which library calls raise.
-/

/-! ## Python string and path primitives -/

/-- `os.path.join a b` (posixpath: an absolute second component replaces the
first; otherwise a separator is inserted unless one is already there). -/
def pjoin (a b : String) : String :=
  if b.toList.head? = some '/' then b
  else if a = "" ∨ a.toList.getLast? = some '/' then a ++ b
  else a ++ "/" ++ b

/-- `os.path.basename p`: everything after the last `'/'`. -/
def basename (p : String) : String :=
  String.mk (p.toList.foldl (fun acc c => if c = '/' then [] else acc ++ [c]) [])

/-- Index of the last occurrence of `c`, counting from `i` for the head. -/
def lastIndexOfAux (c : Char) : List Char → Nat → Option Nat
  | [], _ => none
  | ch :: rest, i =>
      match lastIndexOfAux c rest (i + 1) with
      | some j => some j
      | none => if ch = c then some i else none

/-- Index of the last occurrence of `c` in `l`, if any. -/
def lastIndexOf (c : Char) (l : List Char) : Option Nat :=
  lastIndexOfAux c l 0

/-- `os.path.splitext(s)[1]` (posixpath): the suffix starting at the last dot,
provided that dot lies after the last separator and at least one non-dot
character stands between the start of the base name and that dot (so names
made of leading dots only, such as `".wav"`, have extension `""`). -/
def splitextExt (s : String) : String :=
  let l := s.toList
  match lastIndexOf '.' l with
  | none => ""
  | some di =>
      let fi : Nat :=
        match lastIndexOf '/' l with
        | none => 0
        | some si => si + 1
      if fi ≤ di then
        if ((l.drop fi).take (di - fi)).any (fun c => !(c = '.')) then
          String.mk (l.drop di)
        else ""
      else ""

/-- Python `s.strip('.')`: remove leading and trailing `'.'` characters. -/
def stripDots (s : String) : String :=
  String.mk (((s.toList.dropWhile (fun c => c = '.')).reverse.dropWhile
    (fun c => c = '.')).reverse)

/-- Python `s.lower()` (ASCII case folding, which covers every extension the
script compares). -/
def strLower (s : String) : String :=
  String.mk (s.toList.map Char.toLower)

/-- The normalisation `ext.lower().strip('.')` the script applies both to the
configured extensions and to each file's extension. -/
def normTok (s : String) : String :=
  stripDots (strLower s)

/-! ## The source tree and discovery (`get_audio_files`, lines 19-37) -/

/-- A sequence of directory entries in first-child/next-sibling form: `nil`
ends the sequence, `file` is a regular file entry, `dir` a subdirectory
carrying its own entry sequence.  A whole directory's contents is one
`FSTree` value. -/
inductive FSTree where
  | nil : FSTree
  | file (name : String) (rest : FSTree)
  | dir (name : String) (children : FSTree) (rest : FSTree)
deriving DecidableEq

/-- Names of the regular files among a directory's entries, in listing
order (the `files` component of an `os.walk` triple). -/
def filesNames : FSTree → List String
  | .nil => []
  | .file n r => n :: filesNames r
  | .dir _ _ r => filesNames r

/-- The `(dirpath, filenames)` pairs `os.walk` yields for the subdirectories
of the directory at path `d` whose entries are `ts`, in top-down traversal
order. -/
def osWalkDirs (d : String) : FSTree → List (String × List String)
  | .nil => []
  | .file _ r => osWalkDirs d r
  | .dir n cs r =>
      ((pjoin d n, filesNames cs) :: osWalkDirs (pjoin d n) cs) ++ osWalkDirs d r

/-- `os.walk` over a root directory at path `d` with entries `ts`: the root's
own pair first, then the subdirectories top-down. -/
def osWalk (d : String) (ts : FSTree) : List (String × List String) :=
  (d, filesNames ts) :: osWalkDirs d ts

/-- The filtering loop of `get_audio_files` over an already-produced walk:
for every yielded directory and every file name in it, keep
`os.path.join(root, file)` when the file's normalised extension is a member
of the (already normalised) extension list. -/
def gafFilter (nexts : List String) (walked : List (String × List String)) :
    List String :=
  walked.flatMap (fun rf =>
    rf.2.filterMap (fun file =>
      if nexts.contains (normTok (splitextExt file)) then some (pjoin rf.1 file)
      else none))

/-- `get_audio_files(input_dir, extensions)` (lines 19-37): normalise the
extension list, walk the tree rooted at `input_dir`, and keep the matching
file paths.  Nothing inspects size, permissions or content. -/
def get_audio_files (input_dir : String) (tree : FSTree)
    (extensions : List String) : List String :=
  gafFilter (extensions.map normTok) (osWalk input_dir tree)

/-- Specification-side enumeration of all (directory path, file name) pairs
reachable by recursive descent from the root, written by direct recursion on
the tree (not via `os.walk`). -/
def allFilesUnder (d : String) : FSTree → List (String × String)
  | .nil => []
  | .file n r => (d, n) :: allFilesUnder d r
  | .dir n cs r => allFilesUnder (pjoin d n) cs ++ allFilesUnder d r

/-- The (directory path, file name) pairs of a walk, in the order the nested
loops of `get_audio_files` visit them. -/
def walkPairs (d : String) (ts : FSTree) : List (String × String) :=
  (osWalk d ts).flatMap (fun rf => rf.2.map (fun f => (rf.1, f)))

/-- The membership test of `get_audio_files` on one (directory, file) pair. -/
def extMatch (nexts : List String) (q : String × String) : Bool :=
  nexts.contains (normTok (splitextExt q.2))

/-! ## Timestamps (`datetime.now().strftime("%Y%m%d_%H%M%S")`, line 47) -/

/-- A wall-clock reading at second granularity, as `datetime.now()` returns
(its fields obey `1 ≤ month ≤ 12`, `1 ≤ day ≤ 31`, `hour ≤ 23`,
`minute ≤ 59`, `second ≤ 59`, `1 ≤ year ≤ 9999`). -/
structure PyDateTime where
  year : Nat
  month : Nat
  day : Nat
  hour : Nat
  minute : Nat
  second : Nat
deriving DecidableEq

/-- The field ranges `datetime` guarantees. -/
def PyDateTime.Valid (t : PyDateTime) : Prop :=
  1 ≤ t.year ∧ t.year ≤ 9999 ∧ 1 ≤ t.month ∧ t.month ≤ 12 ∧
    1 ≤ t.day ∧ t.day ≤ 31 ∧ t.hour ≤ 23 ∧ t.minute ≤ 59 ∧ t.second ≤ 59

instance (t : PyDateTime) : Decidable t.Valid := by
  unfold PyDateTime.Valid; infer_instance

/-- The decimal digit character for `d < 10`. -/
def dchar (d : Nat) : Char :=
  Char.ofNat (48 + d)

/-- Two-digit zero-padded decimal (`%m`, `%d`, `%H`, `%M`, `%S` on the
in-range values `datetime` produces). -/
def pad2 (n : Nat) : List Char :=
  [dchar (n / 10), dchar (n % 10)]

/-- Four-digit zero-padded decimal (`%Y` on `1 ≤ year ≤ 9999`). -/
def pad4 (n : Nat) : List Char :=
  pad2 (n / 100) ++ pad2 (n % 100)

/-- The characters of `strftime("%Y%m%d_%H%M%S")`. -/
def tsChars (t : PyDateTime) : List Char :=
  pad4 t.year ++ pad2 t.month ++ pad2 t.day ++ '_' ::
    (pad2 t.hour ++ pad2 t.minute ++ pad2 t.second)

/-- `datetime.now().strftime("%Y%m%d_%H%M%S")` as a string. -/
def strftimeYmdHMS (t : PyDateTime) : String :=
  String.mk (tsChars t)

/-- Does a string have the shape `YYYYMMDD_HHMMSS`: 15 characters, all
decimal digits except an underscore at position 8? -/
def tsShape (s : String) : Bool :=
  match s.toList with
  | [y1, y2, y3, y4, m1, m2, d1, d2, u, h1, h2, i1, i2, s1, s2] =>
      ([y1, y2, y3, y4, m1, m2, d1, d2, h1, h2, i1, i2, s1, s2].all Char.isDigit)
        && u = '_'
  | _ => false

/-! ## Exceptions, environment, sampling -/

/-- The exceptions the script's library calls can raise (all are subclasses
of `Exception`, so the placement loop's `except Exception` catches any of
them). -/
inductive PyErr where
  | fileExists : PyErr
  | permissionDenied : PyErr
  | other (msg : String) : PyErr
deriving DecidableEq

/-- The run's environment: the wall-clock reading taken at line 47, the
randomness consumed by `random.sample`, and which library calls raise.
`makedirsErr` is the outcome of `os.makedirs` (line 52); `placeErr i` is an
error injected into the `i`-th placement (1-based, matching
`enumerate(selected_files, 1)`), covering permission errors, broken sources
and a full filesystem. -/
structure Env where
  now : PyDateTime
  rand : Nat → Nat
  makedirsErr : Option PyErr
  placeErr : Nat → Option PyErr

/-- Selection without replacement driven by the oracle `rand`: at each step
pick the element whose index is `rand step` reduced modulo the remaining pool
size and remove it from the pool.  This models `random.sample(population, k)`
for `k ≤ len(population)`: a sequence of `k` draws at distinct positions. -/
def sampleAux (rand : Nat → Nat) : Nat → Nat → List String → List String
  | _, 0, _ => []
  | _, _ + 1, [] => []
  | step, n + 1, x :: xs =>
      let pool := x :: xs
      let idx := rand step % pool.length
      pool.getD idx "" :: sampleAux rand (step + 1) n (pool.eraseIdx idx)

/-- `random.sample(population, k)`. -/
def randomSample (rand : Nat → Nat) (population : List String) (k : Nat) :
    List String :=
  sampleAux rand 0 k population

/-- Lines 55-56: `num_files = min(len(audio_files), max_files)` followed by
`random.sample(audio_files, num_files)`. -/
def selectedOf (env : Env) (audio_files : List String) (max_files : Nat) :
    List String :=
  randomSample env.rand audio_files (min audio_files.length max_files)

/-! ## The destination filesystem and placement -/

/-- An entry placed in a kit directory: a copy of a source file
(`shutil.copy2`) or a symbolic link to it (`os.symlink`). -/
inductive DEntry where
  | copied (src : String) : DEntry
  | linked (target : String) : DEntry
deriving DecidableEq

/-- The destination filesystem state: the directories created and the entries
placed, newest first. -/
structure FS where
  dirs : List String
  entries : List (String × DEntry)
deriving DecidableEq

def FS.empty : FS := ⟨[], []⟩

/-- The entry recorded at path `p` in an entry list, if any (first match,
newest first). -/
def lookupEntry : List (String × DEntry) → String → Option DEntry
  | [], _ => none
  | (q, e) :: rest, p => if q = p then some e else lookupEntry rest p

/-- The entry at path `p`, if one was placed there. -/
def FS.lookup (fs : FS) (p : String) : Option DEntry :=
  lookupEntry fs.entries p

/-- Does path `p` exist in the destination filesystem (as entry or
directory)? -/
def FS.pathExists (fs : FS) (p : String) : Bool :=
  fs.entries.any (fun e => e.1 = p) || fs.dirs.contains p

/-- The pure effect of a successful `os.makedirs(p, exist_ok=True)`. -/
def FS.mkdir (fs : FS) (p : String) : FS :=
  { fs with dirs := if fs.dirs.contains p then fs.dirs else p :: fs.dirs }

/-- `os.makedirs(p, exist_ok=True)` (line 52): idempotent on an existing
directory; raises only when the environment makes it raise. -/
def makedirs (fs : FS) (p : String) (err : Option PyErr) : Except PyErr FS :=
  match err with
  | some e => .error e
  | none => .ok (fs.mkdir p)

/-- `shutil.copy2(src, dest)` on a well-formed destination: places a copy,
silently overwriting an existing regular file at `dest`. -/
def copy2 (fs : FS) (src dest : String) : FS :=
  { fs with
    entries := (dest, DEntry.copied src) :: fs.entries.filter (fun e => !(e.1 = dest)) }

/-- `os.symlink(src, dest)`: raises `FileExistsError` when `dest` already
exists, otherwise records the link. -/
def symlinkOp (fs : FS) (src dest : String) : Except PyErr FS :=
  if fs.pathExists dest then .error .fileExists
  else .ok { fs with entries := (dest, DEntry.linked src) :: fs.entries }

/-- Line 67: `f"{i:02d}_{filename}"` with `filename = os.path.basename(src)`:
the 1-based index zero-padded to a minimum width of two digits, an
underscore, and the source file's base name. -/
def fmt02 (i : Nat) : String :=
  if i < 10 then "0" ++ toString i else toString i

/-- The file name placed for draw index `i` (1-based) and source `src`. -/
def destName (i : Nat) (src : String) : String :=
  fmt02 i ++ "_" ++ basename src

/-- One placement (lines 70-74): an environment-injected error raises;
otherwise symlink mode may raise `FileExistsError` on an existing
destination, while copy mode always succeeds (overwriting if need be). -/
def placeFile (fs : FS) (use_symlinks : Bool) (src dest : String)
    (inj : Option PyErr) : Except PyErr FS :=
  match inj with
  | some e => .error e
  | none => if use_symlinks then symlinkOp fs src dest else .ok (copy2 fs src dest)

/-- The placement loop (lines 63-78) starting at draw index `i`:
`for i, source_file in enumerate(selected_files, 1)` with a
`try/except Exception` around each placement; any exception aborts the loop,
the function reports `False`, and the already-placed files stay.  Every
exception is caught here, so the loop itself returns a plain pair. -/
def placeLoop (kit_dir : String) (use_symlinks : Bool) (env : Env) :
    Nat → List String → FS → Bool × FS
  | _, [], fs => (true, fs)
  | i, src :: rest, fs =>
      let dest := pjoin kit_dir (destName i src)
      match placeFile fs use_symlinks src dest (env.placeErr i) with
      | .error _ => (false, fs)
      | .ok fs1 => placeLoop kit_dir use_symlinks env (i + 1) rest fs1

/-- The kit directory path: `os.path.join(output_dir, f"DrumKit_{timestamp}")`
(lines 47-49). -/
def kitDirOf (output_dir : String) (env : Env) : String :=
  pjoin output_dir ("DrumKit_" ++ strftimeYmdHMS env.now)

/-- `create_drum_kit(audio_files, output_dir, max_files, use_symlinks)`
(lines 40-82).  An empty discovery list returns `False` before any
filesystem mutation; `os.makedirs` stands outside every `try/except`, so its
exception escapes as `.error`; the placement loop catches everything it
raises. -/
def create_drum_kit (audio_files : List String) (output_dir : String)
    (max_files : Nat) (use_symlinks : Bool) (env : Env) (fs : FS) :
    Except PyErr (Bool × FS) :=
  if audio_files.isEmpty then .ok (false, fs)
  else
    let kit_dir := kitDirOf output_dir env
    match makedirs fs kit_dir env.makedirsErr with
    | .error e => .error e
    | .ok fs1 =>
        let selected_files := selectedOf env audio_files max_files
        .ok (placeLoop kit_dir use_symlinks env 1 selected_files fs1)

/-- The kit-generation loop of `main` (lines 186-194), kit number `kitNum`
first, `n` kits to go: each kit gets its own environment (in particular its
own wall-clock reading, the kits being separated by `time.sleep(1)`); a kit's
`False` outcome does not stop the loop, while an escaped exception aborts the
whole run.  Returns the per-kit outcomes in order. -/
def runKitsAux (audio_files : List String) (output_dir : String)
    (max_files : Nat) (use_symlinks : Bool) (envs : Nat → Env) (kitNum : Nat) :
    Nat → FS → Except PyErr (List Bool × FS)
  | 0, fs => .ok ([], fs)
  | n + 1, fs =>
      match create_drum_kit audio_files output_dir max_files use_symlinks
          (envs kitNum) fs with
      | .error e => .error e
      | .ok (b, fs1) =>
          match runKitsAux audio_files output_dir max_files use_symlinks envs
              (kitNum + 1) n fs1 with
          | .error e => .error e
          | .ok (bs, fs2) => .ok (b :: bs, fs2)

/-- `main`'s kit loop over `num_kits` kits. -/
def runKits (audio_files : List String) (output_dir : String) (max_files : Nat)
    (use_symlinks : Bool) (envs : Nat → Env) (num_kits : Nat) (fs : FS) :
    Except PyErr (List Bool × FS) :=
  runKitsAux audio_files output_dir max_files use_symlinks envs 0 num_kits fs

/-- Line 197: `f"Generated {successful_kits}/{num_kits}"` — the success count
out of the requested count. -/
def runSummary (results : List Bool) : Nat × Nat :=
  (results.count true, results.length)

/-! ## Specification-side helpers -/

/-- The regular expression `^\d{2}_.+$` as a Boolean predicate: exactly two
leading decimal digits, an underscore, then at least one character, none of
them a newline (`.` does not match a newline). -/
def matchesDD (s : String) : Bool :=
  match s.toList with
  | a :: b :: c :: rest =>
      a.isDigit && b.isDigit && c = '_' && !rest.isEmpty
        && rest.all (fun ch => !(ch = '\n'))
  | _ => false

/-- The entry a placement records for mode `use_symlinks` and source `src`. -/
def entryOf (use_symlinks : Bool) (src : String) : DEntry :=
  if use_symlinks then DEntry.linked src else DEntry.copied src

/-- The destination filesystem after copy-placing `srcs` in order starting at
draw index `i` (the state `create_drum_kit` leaves behind for the placements
that did complete). -/
def copyPlaceAll (kit_dir : String) : Nat → List String → FS → FS
  | _, [], fs => fs
  | i, src :: rest, fs =>
      copyPlaceAll kit_dir (i + 1) rest (copy2 fs src (pjoin kit_dir (destName i src)))

/-! ## Concrete instances used by witnesses and counterexamples -/

/-- A fixed wall-clock reading. -/
def dt0 : PyDateTime := ⟨2025, 1, 2, 3, 4, 5⟩

/-- A second reading, one second later. -/
def dt1 : PyDateTime := ⟨2025, 1, 2, 3, 4, 6⟩

/-- An environment in which no library call raises. -/
def env0 : Env :=
  { now := dt0, rand := fun _ => 0, makedirsErr := none, placeErr := fun _ => none }

/-- An environment in which `os.makedirs` raises a permission error. -/
def envMkFail : Env :=
  { env0 with makedirsErr := some .permissionDenied }

/-- An environment in which the first placement raises a permission error. -/
def envPlace1Fail : Env :=
  { env0 with placeErr := fun i => if i = 1 then some .permissionDenied else none }

/-- One hundred distinct source files: enough for the placement indices to
reach three digits. -/
def F100 : List String := (List.range 100).map (fun i => "f" ++ toString i ++ ".wav")

/-- The destination state a successful two-file copy-mode run starting from
an empty destination leaves behind (`env0`'s reading is 2025-01-02
03:04:05). -/
def fsC3 : FS :=
  ⟨["out/DrumKit_20250102_030405"],
   [("out/DrumKit_20250102_030405/02_b.aif", DEntry.copied "b.aif"),
    ("out/DrumKit_20250102_030405/01_a.wav", DEntry.copied "a.wav")]⟩

/-! ## Evaluation checks pinning the embedded Python semantics -/

theorem splitextExt_hidden_name : splitextExt ".wav" = "" := rfl

theorem splitextExt_plain_name : splitextExt "a.wav" = ".wav" := rfl

theorem splitextExt_double_dot : splitextExt "..wav" = "" := rfl

theorem splitextExt_trailing_dot : splitextExt "foo." = "." := rfl

theorem splitextExt_no_dot : splitextExt "foo" = "" := rfl

theorem normTok_case_and_dot : normTok ".WAV" = "wav" := rfl

theorem normTok_dot_only : normTok "." = "" := rfl

theorem basename_nested : basename "a/b/c.wav" = "c.wav" := rfl

theorem basename_plain : basename "c.wav" = "c.wav" := rfl

theorem pjoin_plain : pjoin "a" "b" = "a/b" := rfl

theorem pjoin_trailing_sep : pjoin "a/" "b" = "a/b" := rfl

theorem pjoin_absolute_second : pjoin "a" "/b" = "/b" := rfl

theorem fmt02_pads_single_digit : fmt02 7 = "07" := rfl

theorem fmt02_two_digit : fmt02 42 = "42" := rfl

theorem fmt02_three_digit_overflow : fmt02 100 = "100" := rfl

theorem strftime_example : strftimeYmdHMS ⟨2025, 1, 2, 3, 4, 5⟩ = "20250102_030405" := rfl

theorem tsShape_example : tsShape "20250102_030405" = true := rfl

theorem get_audio_files_example :
    get_audio_files "r" (.file "a.wav" (.dir "s" (.file "b.AIF" .nil)
      (.file "c.txt" .nil))) ["wav", "aif"] = ["r/a.wav", "r/s/b.AIF"] := rfl

theorem randomSample_oracle_zero :
    randomSample (fun _ => 0) ["a", "b", "c"] 2 = ["a", "b"] := rfl

theorem randomSample_oracle_succ :
    randomSample (fun s => s + 1) ["a", "b", "c"] 3 = ["b", "a", "c"] := rfl

/-! ## Sampling lemmas -/

theorem getD_cons_eraseIdx_perm (l : List String) (i : Nat) (h : i < l.length) :
    List.Perm (l.getD i "" :: l.eraseIdx i) l := by
  induction l generalizing i with
  | nil => simp at h
  | cons x xs ih =>
    cases i with
    | zero => simp
    | succ j =>
      have hj : j < xs.length := by simpa using h
      have h1 : List.Perm (xs.getD j "" :: x :: xs.eraseIdx j)
          (x :: (xs.getD j "" :: xs.eraseIdx j)) := List.Perm.swap x (xs.getD j "") _
      have h2 : List.Perm (x :: (xs.getD j "" :: xs.eraseIdx j)) (x :: xs) :=
        (ih j hj).cons x
      simpa [List.getD_cons_succ, List.eraseIdx_cons_succ] using h1.trans h2

theorem sampleAux_length (rand : Nat → Nat) (n step : Nat) (pool : List String) :
    (sampleAux rand step n pool).length = min n pool.length := by
  induction n generalizing step pool with
  | zero => simp [sampleAux]
  | succ m ih =>
    cases pool with
    | nil => simp [sampleAux]
    | cons x xs =>
      have hlt : rand step % (x :: xs).length < (x :: xs).length :=
        Nat.mod_lt _ (by simp)
      have hlen := List.length_eraseIdx_add_one hlt
      simp only [sampleAux, List.length_cons, ih]
      simp only [List.length_cons] at hlen
      omega

theorem sampleAux_subperm (rand : Nat → Nat) (n step : Nat) (pool : List String) :
    List.Subperm (sampleAux rand step n pool) pool := by
  induction n generalizing step pool with
  | zero => simp [sampleAux]
  | succ m ih =>
    cases pool with
    | nil => simp [sampleAux]
    | cons x xs =>
      simp only [sampleAux]
      have hlt : rand step % (x :: xs).length < (x :: xs).length :=
        Nat.mod_lt _ (by simp)
      have hperm := getD_cons_eraseIdx_perm (x :: xs) (rand step % (x :: xs).length) hlt
      have hsub := ih (step + 1) ((x :: xs).eraseIdx (rand step % (x :: xs).length))
      obtain ⟨u, hu, hsl⟩ := hsub
      exact List.Subperm.trans
        ⟨(x :: xs).getD (rand step % (x :: xs).length) "" :: u,
          hu.cons _, hsl.cons₂ _⟩
        hperm.subperm

theorem sampleAux_nodup (rand : Nat → Nat) (n step : Nat) (pool : List String)
    (hnd : pool.Nodup) : (sampleAux rand step n pool).Nodup := by
  obtain ⟨u, hu, hsl⟩ := sampleAux_subperm rand n step pool
  exact hu.nodup (hsl.nodup hnd)

/-! ## C2: selection size and distinctness -/

/-- C2: for a non-empty discovered list `F` and a positive request `k`,
the selection `create_drum_kit` draws (lines 54-56) has exactly
`min (len F) k` elements and is drawn without replacement: it is a
sub-permutation of `F`, and duplicates cannot appear as long as the
discovered paths themselves are distinct (as one traversal of a real
directory tree yields them). -/
theorem kit_selection_size_and_nodup (F : List String) (k : Nat) (env : Env)
    (hF : F ≠ []) (hk : 0 < k) :
    (selectedOf env F k).length = min F.length k ∧
      List.Subperm (selectedOf env F k) F ∧
      (F.Nodup → (selectedOf env F k).Nodup) := by
  refine ⟨?_, sampleAux_subperm _ _ _ _, fun h => sampleAux_nodup _ _ _ _ h⟩
  have h := sampleAux_length env.rand (min F.length k) 0 F
  have h2 : min (min F.length k) F.length = min F.length k := by omega
  rw [h2] at h
  exact h

/-- Witness for C2 at a concrete input. -/
theorem kit_selection_size_and_nodup_witness :
    (selectedOf env0 ["a.wav", "b.wav", "c.wav"] 2).length =
        min (["a.wav", "b.wav", "c.wav"] : List String).length 2 ∧
      List.Subperm (selectedOf env0 ["a.wav", "b.wav", "c.wav"] 2)
        ["a.wav", "b.wav", "c.wav"] ∧
      ((["a.wav", "b.wav", "c.wav"] : List String).Nodup →
        (selectedOf env0 ["a.wav", "b.wav", "c.wav"] 2).Nodup) :=
  kit_selection_size_and_nodup ["a.wav", "b.wav", "c.wav"] 2 env0
    (by decide) (by decide)

/-! ## C5: empty discovery performs no mutation -/

/-- C5: with an empty discovered list, `create_drum_kit` reports failure
before any filesystem operation (lines 42-44 precede the `os.makedirs` of
line 52): no kit directory is created and no file is placed — the
destination filesystem is returned unchanged. -/
theorem empty_discovery_no_mutation (output_dir : String) (max_files : Nat)
    (use_symlinks : Bool) (env : Env) (fs : FS) :
    create_drum_kit [] output_dir max_files use_symlinks env fs =
      .ok (false, fs) := rfl

/-! ## Placement failure and error propagation -/

theorem placeLoop_first_fail (kit_dir : String) (env : Env) (err : PyErr) :
    ∀ (sel : List String) (t i : Nat) (fs : FS), t < sel.length →
      env.placeErr (i + t) = some err →
      (∀ m, m < t → env.placeErr (i + m) = none) →
      placeLoop kit_dir false env i sel fs =
        (false, copyPlaceAll kit_dir i (sel.take t) fs)
  | [], t, i, fs, ht, _, _ => absurd ht (by simp)
  | s :: rest, 0, i, fs, _, hfail, _ => by
      simp only [placeLoop, placeFile, Nat.add_zero] at *
      simp [hfail, copyPlaceAll]
  | s :: rest, t + 1, i, fs, ht, hfail, hbefore => by
      have h0 : env.placeErr i = none := by
        have := hbefore 0 (Nat.succ_pos t)
        simpa using this
      have hrec := placeLoop_first_fail kit_dir env err rest t (i + 1)
        (copy2 fs s (pjoin kit_dir (destName i s)))
        (by simpa using ht)
        (by rw [show i + 1 + t = i + (t + 1) by omega]; exact hfail)
        (fun m hm => by
          rw [show i + 1 + m = i + (m + 1) by omega]
          exact hbefore (m + 1) (by omega))
      simp only [placeLoop, placeFile, h0, List.take_succ_cons, copyPlaceAll]
      exact hrec

theorem create_ok_of_no_mkdir_err (files : List String) (out : String)
    (k : Nat) (mode : Bool) (env : Env) (fs : FS)
    (h : env.makedirsErr = none) :
    ∃ r, create_drum_kit files out k mode env fs = Except.ok r := by
  unfold create_drum_kit
  by_cases hf : files.isEmpty
  · simp [hf]
  · simp [hf, makedirs, h]

theorem runKitsAux_total (files : List String) (out : String) (k : Nat)
    (mode : Bool) (envs : Nat → Env)
    (hmk : ∀ m, (envs m).makedirsErr = none) :
    ∀ (n kitNum : Nat) (fs : FS), ∃ res fs1,
      runKitsAux files out k mode envs kitNum n fs = .ok (res, fs1) ∧
        res.length = n := by
  intro n
  induction n with
  | zero => exact fun kitNum fs => ⟨[], fs, rfl, rfl⟩
  | succ m ih =>
    intro kitNum fs
    obtain ⟨r, hr⟩ :=
      create_ok_of_no_mkdir_err files out k mode (envs kitNum) fs (hmk kitNum)
    obtain ⟨b, fsb⟩ := r
    obtain ⟨res, fs1, hrun, hlen⟩ := ih (kitNum + 1) fsb
    exact ⟨b :: res, fs1, by simp only [runKitsAux, hr, hrun], by simp [hlen]⟩

/-! ## C4: a failed placement aborts its kit, later kits proceed -/

/-- C4: when the `(1+t)`-th placement of a kit raises (and the `t` before it
succeed), `create_drum_kit` returns `False` for that kit with exactly the
first `t` placements left in the partially built kit directory — no later
placement happens and nothing is rolled back (lines 70-78); and whatever
placements fail, `main`'s loop (lines 186-197) still attempts every
requested kit and reports a success count out of the requested count. -/
theorem placement_failure_aborts_kit_run_continues
    (files : List String) (out : String) (k : Nat) (env : Env) (fs : FS)
    (envs : Nat → Env) (err : PyErr) (t : Nat)
    (hne : files ≠ [])
    (ht : t < min files.length k)
    (hfail : env.placeErr (1 + t) = some err)
    (hbefore : ∀ m, m < t → env.placeErr (1 + m) = none)
    (hmk : env.makedirsErr = none)
    (hmks : ∀ m, (envs m).makedirsErr = none) :
    create_drum_kit files out k false env fs =
        .ok (false, copyPlaceAll (kitDirOf out env) 1
          ((selectedOf env files k).take t) (fs.mkdir (kitDirOf out env))) ∧
      ∀ nk fs0, ∃ results fsEnd,
        runKits files out k false envs nk fs0 = .ok (results, fsEnd) ∧
          results.length = nk ∧ runSummary results = (results.count true, nk) := by
  constructor
  · have hsl : (selectedOf env files k).length = min files.length k := by
      have h := sampleAux_length env.rand (min files.length k) 0 files
      have h2 : min (min files.length k) files.length = min files.length k := by
        omega
      rw [h2] at h
      exact h
    have hf : files.isEmpty = false := by
      cases files with
      | nil => exact absurd rfl hne
      | cons a l => rfl
    unfold create_drum_kit
    simp only [hf, Bool.false_eq_true, if_false, makedirs, hmk]
    exact congrArg Except.ok
      (placeLoop_first_fail (kitDirOf out env) env err (selectedOf env files k)
        t 1 (fs.mkdir (kitDirOf out env)) (by omega) hfail hbefore)
  · intro nk fs0
    obtain ⟨res, fs1, hrun, hlen⟩ :=
      runKitsAux_total files out k false envs hmks nk 0 fs0
    exact ⟨res, fs1, hrun, hlen, by simp [runSummary, hlen]⟩

/-- Witness for C4: two files, the first placement fails, nothing is placed,
and a two-kit run with clean environments still attempts both kits. -/
theorem placement_failure_aborts_kit_run_continues_witness :
    create_drum_kit ["a.wav", "b.wav"] "o" 2 false envPlace1Fail FS.empty =
        .ok (false, copyPlaceAll (kitDirOf "o" envPlace1Fail) 1
          ((selectedOf envPlace1Fail ["a.wav", "b.wav"] 2).take 0)
          (FS.empty.mkdir (kitDirOf "o" envPlace1Fail))) ∧
      ∀ nk fs0, ∃ results fsEnd,
        runKits ["a.wav", "b.wav"] "o" 2 false (fun _ => env0) nk fs0 =
            .ok (results, fsEnd) ∧
          results.length = nk ∧ runSummary results = (results.count true, nk) :=
  placement_failure_aborts_kit_run_continues ["a.wav", "b.wav"] "o" 2
    envPlace1Fail FS.empty (fun _ => env0) .permissionDenied 0
    (by decide) (by decide) rfl (fun m hm => absurd hm (Nat.not_lt_zero m))
    rfl (fun _ => rfl)

/-! ## C7: which exceptions are caught -/

/-- C7 counterexample: an error raised by `os.makedirs` (line 52) is caught
nowhere — it escapes `create_drum_kit` and `main`'s loop alike, so a
filesystem error during the run reaches the top level, contrary to the
claim that every filesystem error is caught at its point of occurrence. -/
theorem makedirs_error_escapes :
    create_drum_kit ["a.wav"] "out" 1 false envMkFail FS.empty =
        .error .permissionDenied ∧
      runKits ["a.wav"] "out" 1 false (fun _ => envMkFail) 1 FS.empty =
        .error .permissionDenied :=
  ⟨rfl, rfl⟩

/-- C7 amended: every exception raised during the per-file placement loop is
caught at its point of occurrence and turned into a message plus a `False`
outcome — `create_drum_kit` returns normally whenever `os.makedirs` does not
raise — but `os.makedirs` stands outside every `try/except`, so its errors
propagate uncaught. -/
theorem placement_errors_caught_makedirs_errors_escape
    (files : List String) (out : String) (k : Nat) (mode : Bool) (env : Env)
    (fs : FS) :
    (env.makedirsErr = none →
        ∃ r, create_drum_kit files out k mode env fs = Except.ok r) ∧
      (∀ e, env.makedirsErr = some e → files ≠ [] →
        create_drum_kit files out k mode env fs = .error e) := by
  constructor
  · exact fun h => create_ok_of_no_mkdir_err files out k mode env fs h
  · intro e he hne
    have hf : files.isEmpty = false := by
      cases files with
      | nil => exact absurd rfl hne
      | cons a l => rfl
    unfold create_drum_kit
    simp [hf, makedirs, he]

/-! ## Timestamp injectivity and the kit directory name -/

theorem dchar_inj : ∀ a, a < 10 → ∀ b, b < 10 → dchar a = dchar b → a = b := by
  decide

theorem dchar_isDigit : ∀ a, a < 10 → (dchar a).isDigit = true := by
  decide

theorem pad2_inj (a b : Nat) (ha : a < 100) (hb : b < 100)
    (h : pad2 a = pad2 b) : a = b := by
  simp only [pad2, List.cons.injEq, and_true] at h
  obtain ⟨h1, h2⟩ := h
  have e1 := dchar_inj _ (by omega) _ (by omega) h1
  have e2 := dchar_inj _ (by omega) _ (by omega) h2
  omega

theorem pad4_inj (a b : Nat) (ha : a ≤ 9999) (hb : b ≤ 9999)
    (h : pad4 a = pad4 b) : a = b := by
  have h' : pad2 (a / 100) ++ pad2 (a % 100) = pad2 (b / 100) ++ pad2 (b % 100) :=
    h
  obtain ⟨h1, h2⟩ := List.append_inj h' (by simp [pad2])
  have e1 := pad2_inj _ _ (by omega) (by omega) h1
  have e2 := pad2_inj _ _ (by omega) (by omega) h2
  omega

theorem tsChars_inj (t1 t2 : PyDateTime) (h1 : t1.Valid) (h2 : t2.Valid)
    (heq : tsChars t1 = tsChars t2) : t1 = t2 := by
  obtain ⟨y, mo, d, ho, mn, s⟩ := t1
  obtain ⟨y2, mo2, d2, ho2, mn2, s2⟩ := t2
  obtain ⟨ya, yb, ma, mb, da, db, hh, mi, se⟩ := h1
  obtain ⟨ya2, yb2, ma2, mb2, da2, db2, hh2, mi2, se2⟩ := h2
  simp only at ya yb ma mb da db hh mi se ya2 yb2 ma2 mb2 da2 db2 hh2 mi2 se2
  simp only [tsChars] at heq
  obtain ⟨eYMD, eRest⟩ := List.append_inj heq (by simp [pad4, pad2])
  obtain ⟨eYM, eDay⟩ := List.append_inj eYMD (by simp [pad4, pad2])
  obtain ⟨eYear, eMonth⟩ := List.append_inj eYM (by simp [pad4, pad2])
  have eHMS : pad2 ho ++ pad2 mn ++ pad2 s = pad2 ho2 ++ pad2 mn2 ++ pad2 s2 := by
    simpa using eRest
  obtain ⟨eHM, eSec⟩ := List.append_inj eHMS (by simp [pad2])
  obtain ⟨eHour, eMin⟩ := List.append_inj eHM (by simp [pad2])
  simp only [PyDateTime.mk.injEq]
  exact ⟨pad4_inj _ _ (by omega) (by omega) eYear,
    pad2_inj _ _ (by omega) (by omega) eMonth,
    pad2_inj _ _ (by omega) (by omega) eDay,
    pad2_inj _ _ (by omega) (by omega) eHour,
    pad2_inj _ _ (by omega) (by omega) eMin,
    pad2_inj _ _ (by omega) (by omega) eSec⟩

theorem tsShape_of_valid (t : PyDateTime) (h : t.Valid) :
    tsShape (strftimeYmdHMS t) = true := by
  obtain ⟨y, mo, d, ho, mn, s⟩ := t
  obtain ⟨ya, yb, ma, mb, da, db, hh, mi, se⟩ := h
  simp only at ya yb ma mb da db hh mi se
  simp only [tsShape, strftimeYmdHMS, tsChars, pad4, pad2, List.cons_append,
    List.nil_append, String.toList]
  simp only [List.all_cons, List.all_nil, Bool.and_true, Bool.and_eq_true,
    decide_eq_true_eq]
  repeat' apply And.intro
  all_goals first
    | trivial
    | (apply dchar_isDigit; omega)

theorem placeLoop_dirs (kd : String) (mode : Bool) (env : Env) :
    ∀ (sel : List String) (i : Nat) (fs : FS),
      ((placeLoop kd mode env i sel fs).2).dirs = fs.dirs
  | [], _, _ => rfl
  | s :: rest, i, fs => by
      simp only [placeLoop]
      cases henv : env.placeErr i with
      | some e => simp [placeFile, henv]
      | none =>
        cases mode with
        | false =>
          simp only [placeFile, henv]
          exact placeLoop_dirs kd false env rest (i + 1) _
        | true =>
          simp only [placeFile, henv, symlinkOp]
          by_cases hex : FS.pathExists fs (pjoin kd (destName i s)) = true
          · simp [hex]
          · simp only [Bool.not_eq_true] at hex
            simp only [hex, Bool.false_eq_true, if_false]
            exact placeLoop_dirs kd true env rest (i + 1) _

theorem create_records_kit_dir (files : List String) (out : String) (k : Nat)
    (mode : Bool) (env : Env) (fs : FS) (hne : files ≠ [])
    (hmk : env.makedirsErr = none) :
    ∃ r, create_drum_kit files out k mode env fs = Except.ok r ∧
      kitDirOf out env ∈ r.2.dirs := by
  have hf : files.isEmpty = false := by
    cases files with
    | nil => exact absurd rfl hne
    | cons a l => rfl
  refine ⟨(placeLoop (kitDirOf out env) mode env 1 (selectedOf env files k)
    (fs.mkdir (kitDirOf out env))), ?_, ?_⟩
  · unfold create_drum_kit
    simp [hf, makedirs, hmk]
  · rw [placeLoop_dirs]
    show kitDirOf out env ∈ (fs.mkdir (kitDirOf out env)).dirs
    unfold FS.mkdir
    split
    · rename_i hcond
      exact List.elem_iff.mp hcond
    · exact List.mem_cons_self _ _

/-! ## C6: kit naming and distinctness across seconds -/

/-- C6: the kit directory is named `DrumKit_` followed by the wall-clock
reading formatted `YYYYMMDD_HHMMSS` (lines 46-49), the name is recorded by
`os.makedirs` (line 52), and two kits whose second-granularity readings
differ — as `main`'s `time.sleep(1)` between kits guarantees (lines
191-194) — receive distinct directory names. -/
theorem kit_names_distinct_across_seconds (t1 t2 : PyDateTime)
    (h1 : t1.Valid) (h2 : t2.Valid) (hne : t1 ≠ t2) :
    ("DrumKit_" ++ strftimeYmdHMS t1 ≠ "DrumKit_" ++ strftimeYmdHMS t2) ∧
      tsShape (strftimeYmdHMS t1) = true ∧
      (∀ files out k mode env fs, files ≠ [] → env.makedirsErr = none →
        env.now = t1 →
        ∃ r, create_drum_kit files out k mode env fs = Except.ok r ∧
          pjoin out ("DrumKit_" ++ strftimeYmdHMS t1) ∈ r.2.dirs) := by
  refine ⟨?_, tsShape_of_valid t1 h1, ?_⟩
  · intro habs
    apply hne
    apply tsChars_inj t1 t2 h1 h2
    have hd := congrArg String.data habs
    simp only [strftimeYmdHMS] at hd
    have hd2 : "DrumKit_".data ++ tsChars t1 = "DrumKit_".data ++ tsChars t2 := hd
    exact List.append_cancel_left hd2
  · intro files out k mode env fs hfe hmk hnow
    have := create_records_kit_dir files out k mode env fs hfe hmk
    rw [show kitDirOf out env = pjoin out ("DrumKit_" ++ strftimeYmdHMS t1) from
      by rw [kitDirOf, hnow]] at this
    exact this

/-- Witness for C6 at two concrete readings one second apart. -/
theorem kit_names_distinct_across_seconds_witness :
    ("DrumKit_" ++ strftimeYmdHMS dt0 ≠ "DrumKit_" ++ strftimeYmdHMS dt1) ∧
      tsShape (strftimeYmdHMS dt0) = true ∧
      (∀ files out k mode env fs, files ≠ [] → env.makedirsErr = none →
        env.now = dt0 →
        ∃ r, create_drum_kit files out k mode env fs = Except.ok r ∧
          pjoin out ("DrumKit_" ++ strftimeYmdHMS dt0) ∈ r.2.dirs) :=
  kit_names_distinct_across_seconds dt0 dt1 (by decide) (by decide) (by decide)

/-! ## C10: existing destination — copy overwrites, symlink raises -/

theorem lookupEntry_some_any (l : List (String × DEntry)) (p : String)
    (e : DEntry) (h : lookupEntry l p = some e) :
    ∃ en ∈ l, decide (en.1 = p) = true := by
  induction l with
  | nil => exact absurd h (by simp [lookupEntry])
  | cons a rest ih =>
    obtain ⟨q, e1⟩ := a
    by_cases hq : q = p
    · exact ⟨(q, e1), List.mem_cons_self _ _, by simp [hq]⟩

    · rw [lookupEntry, if_neg hq] at h
      obtain ⟨en, hmem, hen⟩ := ih h
      exact ⟨en, List.mem_cons_of_mem _ hmem, hen⟩

theorem selectedOf_singleton (env : Env) (src : String) (k : Nat) (hk : 1 ≤ k) :
    selectedOf env [src] k = [src] := by
  have h1 : min ([src] : List String).length k = 1 := by
    simpa using Nat.min_eq_left hk
  unfold selectedOf randomSample
  rw [h1]
  simp [sampleAux, Nat.mod_one]

/-- C10: when the destination path of the first placement already holds an
entry, the two placement modes diverge (lines 70-78): `shutil.copy2`
silently overwrites it and the kit reports success, while `os.symlink`
raises `FileExistsError`, which the loop catches and turns into a failed
kit; the pre-existing entries are untouched in the symlink case. -/
theorem existing_dest_copy_overwrites_symlink_fails
    (src out : String) (k : Nat) (env : Env) (fs : FS) (e0 : DEntry)
    (hk : 1 ≤ k) (hmk : env.makedirsErr = none)
    (hpl : ∀ i, env.placeErr i = none)
    (hex : fs.lookup (pjoin (kitDirOf out env) (destName 1 src)) = some e0) :
    (∃ fs1, create_drum_kit [src] out k false env fs = .ok (true, fs1) ∧
        fs1.lookup (pjoin (kitDirOf out env) (destName 1 src)) =
          some (DEntry.copied src)) ∧
      (∃ fs2, create_drum_kit [src] out k true env fs = .ok (false, fs2) ∧
        fs2.entries = fs.entries) := by
  have hmem : (fs.mkdir (kitDirOf out env)).pathExists
      (pjoin (kitDirOf out env) (destName 1 src)) = true := by
    unfold FS.lookup at hex
    unfold FS.pathExists FS.mkdir
    simp only [Bool.or_eq_true, List.any_eq_true]
    exact Or.inl (lookupEntry_some_any fs.entries _ e0 hex)
  constructor
  · refine ⟨(copy2 (fs.mkdir (kitDirOf out env)) src
      (pjoin (kitDirOf out env) (destName 1 src))), ?_, ?_⟩
    · unfold create_drum_kit
      simp only [List.isEmpty_cons, Bool.false_eq_true, if_false, makedirs, hmk]
      rw [selectedOf_singleton env src k hk]
      simp [placeLoop, placeFile, hpl 1]
    · simp [FS.lookup, copy2, lookupEntry]
  · refine ⟨fs.mkdir (kitDirOf out env), ?_, rfl⟩
    unfold create_drum_kit
    simp only [List.isEmpty_cons, Bool.false_eq_true, if_false, makedirs, hmk]
    rw [selectedOf_singleton env src k hk]
    simp [placeLoop, placeFile, hpl 1, symlinkOp, hmem]

/-- Witness for C10: a concrete pre-existing destination entry. -/
theorem existing_dest_copy_overwrites_symlink_fails_witness :
    (∃ fs1, create_drum_kit ["x.wav"] "o" 1 false env0
          ⟨[], [(pjoin (kitDirOf "o" env0) (destName 1 "x.wav"),
            DEntry.copied "old.wav")]⟩ = .ok (true, fs1) ∧
        fs1.lookup (pjoin (kitDirOf "o" env0) (destName 1 "x.wav")) =
          some (DEntry.copied "x.wav")) ∧
      (∃ fs2, create_drum_kit ["x.wav"] "o" 1 true env0
          ⟨[], [(pjoin (kitDirOf "o" env0) (destName 1 "x.wav"),
            DEntry.copied "old.wav")]⟩ = .ok (false, fs2) ∧
        fs2.entries = [(pjoin (kitDirOf "o" env0) (destName 1 "x.wav"),
          DEntry.copied "old.wav")]) :=
  existing_dest_copy_overwrites_symlink_fails "x.wav" "o" 1 env0
    ⟨[], [(pjoin (kitDirOf "o" env0) (destName 1 "x.wav"),
      DEntry.copied "old.wav")]⟩ (DEntry.copied "old.wav")
    (by omega) rfl (fun _ => rfl) (by simp [FS.lookup, lookupEntry])

/-! ## Discovery: the walk-based filter equals a global filter -/

theorem gafInner (nexts : List String) (r : String) (files : List String) :
    files.filterMap (fun file =>
        if nexts.contains (normTok (splitextExt file)) then some (pjoin r file)
        else none) =
      ((files.map (fun f => (r, f))).filter (extMatch nexts)).map
        (fun q => pjoin q.1 q.2) := by
  induction files with
  | nil => rfl
  | cons f fl ih =>
    rw [List.filterMap_cons, List.map_cons, List.filter_cons]
    by_cases h : nexts.contains (normTok (splitextExt f)) = true
    · rw [if_pos h]
      dsimp only
      rw [if_pos (show extMatch nexts (r, f) = true from h), List.map_cons, ih]
    · rw [if_neg h]
      dsimp only
      rw [if_neg (show ¬extMatch nexts (r, f) = true from h), ih]

theorem gafFilter_eq (nexts : List String)
    (walked : List (String × List String)) :
    gafFilter nexts walked =
      ((walked.flatMap (fun rf => rf.2.map (fun f => (rf.1, f)))).filter
        (extMatch nexts)).map (fun q => pjoin q.1 q.2) := by
  induction walked with
  | nil => rfl
  | cons rf rest ih =>
    obtain ⟨r, files⟩ := rf
    simp only [gafFilter] at ih ⊢
    rw [List.flatMap_cons, List.flatMap_cons, List.filter_append,
      List.map_append, gafInner, ih]

theorem get_audio_files_eq (d : String) (ts : FSTree) (exts : List String) :
    get_audio_files d ts exts =
      ((walkPairs d ts).filter (extMatch (exts.map normTok))).map
        (fun q => pjoin q.1 q.2) := by
  unfold get_audio_files
  rw [gafFilter_eq]
  rfl

theorem walkPairs_split (d : String) (ts : FSTree) :
    walkPairs d ts =
      (filesNames ts).map (fun f => (d, f)) ++
        (osWalkDirs d ts).flatMap (fun rf => rf.2.map (fun f => (rf.1, f))) := by
  simp [walkPairs, osWalk, List.flatMap_cons]

theorem walkPairs_perm (ts : FSTree) : ∀ d : String,
    List.Perm (walkPairs d ts) (allFilesUnder d ts) := by
  induction ts with
  | nil =>
    intro d
    simp [walkPairs, osWalk, osWalkDirs, filesNames, allFilesUnder]
  | file n r ih =>
    intro d
    have e1 : walkPairs d (.file n r) = (d, n) :: walkPairs d r := by
      rw [walkPairs_split, walkPairs_split]
      simp [filesNames, osWalkDirs]
    rw [e1]
    exact (ih d).cons (d, n)
  | dir n cs r ihcs ihr =>
    intro d
    have e1 : walkPairs d (.dir n cs r) =
        (filesNames r).map (fun f => (d, f)) ++
          (walkPairs (pjoin d n) cs ++
            (osWalkDirs d r).flatMap (fun rf => rf.2.map (fun f => (rf.1, f)))) := by
      simp [walkPairs_split, filesNames, osWalkDirs, List.flatMap_append,
        List.flatMap_cons, List.append_assoc]
    have e2 : walkPairs d r =
        (filesNames r).map (fun f => (d, f)) ++
          (osWalkDirs d r).flatMap (fun rf => rf.2.map (fun f => (rf.1, f))) :=
      walkPairs_split d r
    rw [e1]
    show List.Perm _ (allFilesUnder (pjoin d n) cs ++ allFilesUnder d r)
    refine List.Perm.trans (List.perm_append_comm_assoc _ _ _) ?_
    rw [← e2]
    exact List.Perm.append (ihcs (pjoin d n)) (ihr d)

/-! ## C1: discovery returns exactly the matching reachable files -/

/-- C1: `get_audio_files` returns, up to traversal order, exactly the joined
paths of the (directory, file) pairs reachable by recursive descent from the
root whose extension — trimmed of dots and case-folded — belongs to the
normalised allowed set, and nothing else; the discovery predicate tests only
the name, never size, permissions or content (neither exists in the model of
the walk, mirroring the code, which consults neither `os.stat` nor the file
itself). -/
theorem discovery_returns_exactly_matching_files (d : String) (ts : FSTree)
    (exts : List String) :
    List.Perm (get_audio_files d ts exts)
        (((allFilesUnder d ts).filter (extMatch (exts.map normTok))).map
          (fun q => pjoin q.1 q.2)) ∧
      ∀ p, p ∈ get_audio_files d ts exts ↔
        ∃ q ∈ allFilesUnder d ts, extMatch (exts.map normTok) q = true ∧
          p = pjoin q.1 q.2 := by
  have hperm : List.Perm (get_audio_files d ts exts)
      (((allFilesUnder d ts).filter (extMatch (exts.map normTok))).map
        (fun q => pjoin q.1 q.2)) := by
    rw [get_audio_files_eq]
    exact ((walkPairs_perm ts d).filter _).map _
  refine ⟨hperm, fun p => ?_⟩
  rw [hperm.mem_iff]
  simp only [List.mem_map, List.mem_filter]
  constructor
  · rintro ⟨q, ⟨hmem, hmatch⟩, heq⟩
    exact ⟨q, hmem, hmatch, heq.symm⟩
  · rintro ⟨q, hmem, hmatch, heq⟩
    exact ⟨q, ⟨hmem, hmatch⟩, heq.symm⟩

/-! ## C8: discovery is deterministic and idempotent on an unchanged tree -/

/-- C8: two runs of `get_audio_files` over the same unchanged tree with the
same extension list produce the same paths (the embedding of one run is a
pure function of the tree, so the second run's output is a permutation —
indeed the same list — of the first's); moreover the output depends on the
extension list only through its normalisation, so any two extension lists
with the same normal form give identical results. -/
theorem discovery_idempotent (d : String) (ts : FSTree) (exts : List String) :
    List.Perm (get_audio_files d ts exts) (get_audio_files d ts exts) ∧
      (get_audio_files d ts exts).toFinset =
        (get_audio_files d ts exts).toFinset ∧
      ∀ exts2, exts.map normTok = exts2.map normTok →
        get_audio_files d ts exts = get_audio_files d ts exts2 :=
  ⟨List.Perm.refl _, rfl, fun exts2 h => by unfold get_audio_files; rw [h]⟩

/-! ## C9: names without a recognised extension separator -/

/-- C9: a file name whose `splitext` extension is empty — including a hidden
file such as `".wav"`, whose only dot leads the name — is discovered exactly
when the empty string belongs to the normalised extension set (as happens
when the user enters `"."` or any all-dots token); the extension spelled
inside such a name plays no role, because the discovery predicate only ever
tests the normalised `splitext` extension of the name. -/
theorem extensionless_file_matches_only_empty_token
    (d name : String) (exts : List String) (hext : splitextExt name = "") :
    (pjoin d name ∈ get_audio_files d (.file name .nil) exts ↔
        "" ∈ exts.map normTok) ∧
      ∀ q : String × String, q.2 = name →
        extMatch (exts.map normTok) q = (exts.map normTok).contains "" := by
  have hq : ∀ q : String × String, q.2 = name →
      extMatch (exts.map normTok) q = (exts.map normTok).contains "" := by
    intro q hqn
    show (exts.map normTok).contains (normTok (splitextExt q.2)) = _
    rw [hqn, hext, show normTok "" = "" from rfl]
  refine ⟨?_, hq⟩
  have hw : walkPairs d (.file name .nil) = [(d, name)] := rfl
  have key : get_audio_files d (.file name .nil) exts =
      if (exts.map normTok).contains "" = true then [pjoin d name] else [] := by
    rw [get_audio_files_eq, hw, List.filter_cons]
    rw [hq (d, name) rfl]
    by_cases hc : (exts.map normTok).contains "" = true
    · rw [if_pos hc, if_pos hc]
      rfl
    · rw [if_neg hc, if_neg hc]
      rfl
  rw [key]
  by_cases hc : (exts.map normTok).contains "" = true
  · rw [if_pos hc]
    simp only [List.mem_singleton]
    exact ⟨fun _ => List.elem_iff.mp hc, fun _ => trivial⟩
  · rw [if_neg hc]
    constructor
    · intro h
      exact absurd h (List.not_mem_nil _)
    · intro h
      exact absurd (List.elem_iff.mpr h) hc

/-- Witness for C9: with the token `"."` (which normalises to the empty
string) the hidden file `".wav"` is discovered. -/
theorem extensionless_file_matches_only_empty_token_witness :
    pjoin "lib" ".wav" ∈ get_audio_files "lib" (.file ".wav" .nil) ["."] :=
  ((extensionless_file_matches_only_empty_token "lib" ".wav" ["."]
    (by decide)).1).mpr (by decide)

/-! ## C3 machinery: decimal prefixes, distinct destinations, lookups -/

theorem fmt02_props : ∀ a, a ≤ 99 →
    ((fmt02 a).data.length = 2 ∧ (fmt02 a).data.all Char.isDigit = true) := by
  decide

set_option maxRecDepth 4000 in
theorem fmt02_inj_le99 : ∀ a, a ≤ 99 → ∀ b, b ≤ 99 →
    fmt02 a = fmt02 b → a = b := by
  decide

theorem str_append_cancel_left (a b c : String) (h : a ++ b = a ++ c) :
    b = c := by
  apply String.ext
  have hd := congrArg String.data h
  rw [String.data_append, String.data_append] at hd
  exact List.append_cancel_left hd

theorem destName_data (i : Nat) (x : String) :
    (destName i x).data = (fmt02 i).data ++ '_' :: (basename x).data := by
  unfold destName
  rw [String.data_append, String.data_append, List.append_assoc]
  rfl

theorem destName_head_digit (i : Nat) (hi : i ≤ 99) (x : String) :
    ¬(destName i x).toList.head? = some '/' := by
  obtain ⟨hlen, hdig⟩ := fmt02_props i hi
  intro habs
  obtain ⟨c1, c2, hl⟩ := List.length_eq_two.mp hlen
  rw [show (destName i x).toList = (destName i x).data from rfl,
    destName_data, hl] at habs
  simp only [List.cons_append, List.head?_cons, Option.some.injEq] at habs
  rw [hl] at hdig
  simp only [List.all_cons, List.all_nil, Bool.and_eq_true, Bool.and_true] at hdig
  rw [habs] at hdig
  exact absurd hdig.1 (by decide)

theorem destName_index_inj (a b : Nat) (ha : a ≤ 99) (hb : b ≤ 99)
    (x y : String) (h : destName a x = destName b y) : a = b := by
  have hd := congrArg String.data h
  rw [destName_data, destName_data] at hd
  have hlen : (fmt02 a).data.length = (fmt02 b).data.length := by
    rw [(fmt02_props a ha).1, (fmt02_props b hb).1]
  obtain ⟨h1, _⟩ := List.append_inj hd hlen
  exact fmt02_inj_le99 a ha b hb (String.ext h1)

theorem pjoin_right_inj (kd n1 n2 : String)
    (h1 : ¬n1.toList.head? = some '/') (h2 : ¬n2.toList.head? = some '/')
    (h : pjoin kd n1 = pjoin kd n2) : n1 = n2 := by
  unfold pjoin at h
  rw [if_neg h1, if_neg h2] at h
  by_cases hk : kd = "" ∨ kd.toList.getLast? = some '/'
  · rw [if_pos hk, if_pos hk] at h
    exact str_append_cancel_left kd n1 n2 h
  · rw [if_neg hk, if_neg hk] at h
    exact str_append_cancel_left (kd ++ "/") n1 n2 h

theorem dest_ne (kd : String) (a b : Nat) (ha : a ≤ 99) (hb : b ≤ 99)
    (hab : a ≠ b) (x y : String) :
    ¬pjoin kd (destName a x) = pjoin kd (destName b y) := by
  intro h
  exact hab (destName_index_inj a b ha hb x y
    (pjoin_right_inj kd _ _ (destName_head_digit a ha x)
      (destName_head_digit b hb y) h))

theorem lookupEntry_filter_ne (l : List (String × DEntry)) (key dest : String)
    (hne : key ≠ dest) :
    lookupEntry (l.filter (fun e => !(e.1 = dest))) key = lookupEntry l key := by
  induction l with
  | nil => rfl
  | cons a rest ih =>
    obtain ⟨q, e⟩ := a
    by_cases hq : q = dest
    · rw [List.filter_cons, if_neg (by simp [hq])]
      rw [ih, lookupEntry, if_neg (by rw [hq]; exact fun hh => hne hh.symm)]
    · rw [List.filter_cons, if_pos (by simp [hq])]
      rw [lookupEntry, lookupEntry]
      by_cases hqk : q = key
      · rw [if_pos hqk, if_pos hqk]
      · rw [if_neg hqk, if_neg hqk, ih]

theorem copy2_lookup_self (fs : FS) (src dest : String) :
    (copy2 fs src dest).lookup dest = some (DEntry.copied src) := by
  unfold copy2 FS.lookup
  rw [lookupEntry, if_pos rfl]

theorem copy2_lookup_ne (fs : FS) (src dest key : String) (h : key ≠ dest) :
    (copy2 fs src dest).lookup key = fs.lookup key := by
  unfold copy2 FS.lookup
  rw [lookupEntry, if_neg (fun hh => h hh.symm), lookupEntry_filter_ne _ _ _ h]

theorem linked_lookup_self (fs : FS) (src dest : String) :
    ({ fs with entries := (dest, DEntry.linked src) :: fs.entries } : FS).lookup
        dest = some (DEntry.linked src) := by
  unfold FS.lookup
  rw [lookupEntry, if_pos rfl]

theorem linked_lookup_ne (fs : FS) (src dest key : String) (h : key ≠ dest) :
    ({ fs with entries := (dest, DEntry.linked src) :: fs.entries } : FS).lookup
        key = fs.lookup key := by
  unfold FS.lookup
  rw [lookupEntry, if_neg (fun hh => h hh.symm)]

theorem placeLoop_lookup_other (kd : String) (mode : Bool) (env : Env) :
    ∀ (sel : List String) (i : Nat) (fs : FS) (key : String),
      (∀ j, j < sel.length → key ≠ pjoin kd (destName (i + j) (sel.getD j ""))) →
      ((placeLoop kd mode env i sel fs).2).lookup key = fs.lookup key
  | [], _, _, _, _ => rfl
  | s :: rest, i, fs, key, h => by
      have h0 : key ≠ pjoin kd (destName i s) := by
        have := h 0 (by simp)
        simpa using this
      have hrest : ∀ j, j < rest.length →
          key ≠ pjoin kd (destName (i + 1 + j) (rest.getD j "")) := by
        intro j hj
        have := h (j + 1) (by simpa using Nat.succ_lt_succ hj)
        rw [show i + (j + 1) = i + 1 + j by omega] at this
        simpa using this
      simp only [placeLoop]
      cases hpf : placeFile fs mode s (pjoin kd (destName i s)) (env.placeErr i) with
      | error e => rfl
      | ok fs2 =>
          show ((placeLoop kd mode env (i + 1) rest fs2).2).lookup key =
            fs.lookup key
          rw [placeLoop_lookup_other kd mode env rest (i + 1) fs2 key hrest]
          unfold placeFile at hpf
          cases henv : env.placeErr i with
          | some e =>
              rw [henv] at hpf
              exact absurd hpf (by simp)
          | none =>
              rw [henv] at hpf
              cases mode with
              | false =>
                  rw [if_neg Bool.false_ne_true] at hpf
                  simp only [Except.ok.injEq] at hpf
                  rw [← hpf]
                  exact copy2_lookup_ne fs s _ key h0
              | true =>
                  rw [if_pos rfl] at hpf
                  unfold symlinkOp at hpf
                  by_cases hex : fs.pathExists (pjoin kd (destName i s)) = true
                  · rw [if_pos hex] at hpf
                    exact absurd hpf (by simp)
                  · rw [if_neg hex] at hpf
                    simp only [Except.ok.injEq] at hpf
                    rw [← hpf]
                    exact linked_lookup_ne fs s _ key h0

theorem placeLoop_true_lookup (kd : String) (mode : Bool) (env : Env) :
    ∀ (sel : List String) (i : Nat) (fs fs1 : FS),
      i + sel.length ≤ 100 →
      placeLoop kd mode env i sel fs = (true, fs1) →
      ∀ j, j < sel.length →
        fs1.lookup (pjoin kd (destName (i + j) (sel.getD j ""))) =
          some (entryOf mode (sel.getD j ""))
  | [], _, _, _, _, _, j, hj => absurd hj (by simp)
  | s :: rest, i, fs, fs1, hle, hloop, j, hj => by
      simp only [placeLoop] at hloop
      simp only [List.length_cons] at hle
      cases hpf : placeFile fs mode s (pjoin kd (destName i s)) (env.placeErr i) with
      | error e =>
          rw [hpf] at hloop
          replace hloop : ((false, fs) : Bool × FS) = (true, fs1) := hloop
          exact absurd (congrArg Prod.fst hloop) (by simp)
      | ok fs2 =>
          rw [hpf] at hloop
          replace hloop : placeLoop kd mode env (i + 1) rest fs2 = (true, fs1) :=
            hloop
          have hfs2 : fs2.lookup (pjoin kd (destName i s)) =
              some (entryOf mode s) := by
            unfold placeFile at hpf
            cases henv : env.placeErr i with
            | some e =>
                rw [henv] at hpf
                exact absurd hpf (by simp)
            | none =>
                rw [henv] at hpf
                cases mode with
                | false =>
                    rw [if_neg Bool.false_ne_true] at hpf
                    simp only [Except.ok.injEq] at hpf
                    rw [← hpf]
                    exact copy2_lookup_self fs s _
                | true =>
                    rw [if_pos rfl] at hpf
                    unfold symlinkOp at hpf
                    by_cases hex : fs.pathExists (pjoin kd (destName i s)) = true
                    · rw [if_pos hex] at hpf
                      exact absurd hpf (by simp)
                    · rw [if_neg hex] at hpf
                      simp only [Except.ok.injEq] at hpf
                      rw [← hpf]
                      exact linked_lookup_self fs s _
          cases j with
          | zero =>
              simp only [Nat.add_zero, List.getD_cons_zero]
              have hne : ∀ j', j' < rest.length →
                  pjoin kd (destName i s) ≠
                    pjoin kd (destName (i + 1 + j') (rest.getD j' "")) := by
                intro j' hj'
                exact dest_ne kd i (i + 1 + j') (by omega) (by omega) (by omega)
                  _ _
              have hother := placeLoop_lookup_other kd mode env rest (i + 1) fs2
                (pjoin kd (destName i s)) hne
              rw [hloop] at hother
              replace hother : fs1.lookup (pjoin kd (destName i s)) =
                  fs2.lookup (pjoin kd (destName i s)) := hother
              rw [hother]
              exact hfs2
          | succ jj =>
              have hjj : jj < rest.length := by
                simp only [List.length_cons] at hj
                omega
              have := placeLoop_true_lookup kd mode env rest (i + 1) fs2 fs1
                (by omega) hloop jj hjj
              rw [show i + (jj + 1) = i + 1 + jj by omega, List.getD_cons_succ]
              exact this

theorem matchesDD_destName (m : Nat) (hm1 : 1 ≤ m) (hm2 : m ≤ 99) (b : String)
    (hb : b.data ≠ []) (hnl : b.data.all (fun c => !(c = '\n')) = true) :
    matchesDD (fmt02 m ++ "_" ++ b) = true := by
  obtain ⟨hlen, hdig⟩ := fmt02_props m hm2
  obtain ⟨c1, c2, hl⟩ := List.length_eq_two.mp hlen
  rw [hl] at hdig
  simp only [List.all_cons, List.all_nil, Bool.and_eq_true, Bool.and_true] at hdig
  have hbe : b.data.isEmpty = false := by
    cases hdata : b.data with
    | nil => exact absurd hdata hb
    | cons _ _ => rfl
  have hscrut : (fmt02 m ++ "_" ++ b).toList = c1 :: c2 :: '_' :: b.data := by
    show (fmt02 m ++ "_" ++ b).data = _
    rw [String.data_append, String.data_append, hl]
    rfl
  unfold matchesDD
  rw [hscrut]
  simp [hdig.1, hdig.2, hbe, hnl]

/-! ## C3: placed names and their numeric prefixes -/

/-- C3 (amended): in a successfully completed kit of at most 99 files (whose
source base names are non-empty and newline-free, as real file names are),
every placed file is named `fmt02 (j+1) ++ "_" ++ basename src` — the 1-based
draw index zero-padded to width 2, an underscore, the original base name —
the names match `^\d{2}_.+$`, the prefixes run contiguously over
`01..len(selected)` in draw order, and each placed entry is recorded at its
name inside the kit directory.  The two-digit form necessarily fails for
kits of 100 files or more, where `"{i:02d}"` emits three digits (see the
counterexample); the claim is amended to kits of at most 99 files. -/
theorem placed_names_prefixes_for_kits_up_to_99
    (files : List String) (out : String) (k : Nat) (mode : Bool) (env : Env)
    (fs fs1 : FS)
    (hn : min files.length k ≤ 99)
    (hbase : ∀ f ∈ files, (basename f).data ≠ [] ∧
      (basename f).data.all (fun c => !(c = '\n')) = true)
    (hsucc : create_drum_kit files out k mode env fs = .ok (true, fs1)) :
    (selectedOf env files k).length = min files.length k ∧
      ∀ j, j < (selectedOf env files k).length →
        destName (j + 1) ((selectedOf env files k).getD j "") =
            fmt02 (j + 1) ++ "_" ++ basename ((selectedOf env files k).getD j "") ∧
          matchesDD (destName (j + 1) ((selectedOf env files k).getD j "")) =
            true ∧
          fs1.lookup (pjoin (kitDirOf out env)
              (destName (j + 1) ((selectedOf env files k).getD j ""))) =
            some (entryOf mode ((selectedOf env files k).getD j "")) := by
  have hsl : (selectedOf env files k).length = min files.length k := by
    have h := sampleAux_length env.rand (min files.length k) 0 files
    have h2 : min (min files.length k) files.length = min files.length k := by
      omega
    rw [h2] at h
    exact h
  unfold create_drum_kit at hsucc
  by_cases hfe : files.isEmpty
  · rw [if_pos hfe] at hsucc
    simp at hsucc
  · rw [if_neg hfe] at hsucc
    cases hmk : env.makedirsErr with
    | some e =>
        rw [hmk] at hsucc
        replace hsucc : (Except.error e : Except PyErr (Bool × FS)) =
            .ok (true, fs1) := hsucc
        exact absurd hsucc (by simp)
    | none =>
        rw [hmk] at hsucc
        replace hsucc : (Except.ok
            (placeLoop (kitDirOf out env) mode env 1 (selectedOf env files k)
              (fs.mkdir (kitDirOf out env))) : Except PyErr (Bool × FS)) =
            .ok (true, fs1) := hsucc
        simp only [Except.ok.injEq] at hsucc
        refine ⟨hsl, fun j hj => ?_⟩
        have hlook := placeLoop_true_lookup (kitDirOf out env) mode env
          (selectedOf env files k) 1 (fs.mkdir (kitDirOf out env)) fs1
          (by omega) hsucc j hj
        rw [show (1 : Nat) + j = j + 1 by omega] at hlook
        have hmem : (selectedOf env files k).getD j "" ∈ files := by
          have hmem1 : (selectedOf env files k).getD j "" ∈
              selectedOf env files k := by
            rw [List.getD_eq_getElem?_getD, List.getElem?_eq_getElem hj]
            exact List.getElem_mem hj
          exact (sampleAux_subperm env.rand (min files.length k) 0
            files).subset hmem1
        obtain ⟨hbne, hbnl⟩ := hbase _ hmem
        exact ⟨rfl,
          matchesDD_destName (j + 1) (by omega) (by omega) _ hbne hbnl, hlook⟩

/-- Witness for C3 at a concrete successful two-file run. -/
theorem placed_names_prefixes_witness :
    (selectedOf env0 ["a.wav", "b.aif"] 2).length =
        min (["a.wav", "b.aif"] : List String).length 2 ∧
      ∀ j, j < (selectedOf env0 ["a.wav", "b.aif"] 2).length →
        destName (j + 1) ((selectedOf env0 ["a.wav", "b.aif"] 2).getD j "") =
            fmt02 (j + 1) ++ "_" ++
              basename ((selectedOf env0 ["a.wav", "b.aif"] 2).getD j "") ∧
          matchesDD (destName (j + 1)
              ((selectedOf env0 ["a.wav", "b.aif"] 2).getD j "")) = true ∧
          fsC3.lookup (pjoin (kitDirOf "out" env0)
              (destName (j + 1)
                ((selectedOf env0 ["a.wav", "b.aif"] 2).getD j ""))) =
            some (entryOf false ((selectedOf env0 ["a.wav", "b.aif"] 2).getD j "")) :=
  placed_names_prefixes_for_kits_up_to_99 ["a.wav", "b.aif"] "out" 2 false env0
    FS.empty fsC3 (by decide) (by decide) rfl

set_option maxRecDepth 10000 in
/-- C3 counterexample: a successfully completed kit of 100 files places its
hundredth file under the name `100_f99.wav`, whose prefix has three digits,
so it does not match `^\d{2}_.+$` — the claim as stated fails for kits of
100 or more files. -/
theorem kit_of_100_files_violates_two_digit_names :
    ((create_drum_kit F100 "out" 100 false env0 FS.empty).toOption.map
        (fun r => r.1) = some true) ∧
      ((create_drum_kit F100 "out" 100 false env0 FS.empty).toOption.map
        (fun r => r.2.lookup (pjoin (kitDirOf "out" env0) "100_f99.wav")) =
          some (some (DEntry.copied "f99.wav"))) ∧
      matchesDD "100_f99.wav" = false :=
  ⟨by decide, by decide, by decide⟩
